import Mathlib

/-!
# Shallow embedding of libuf's hashmap (src/src/map.c)

Pointers (`void *`) are modelled as `Nat`, with `0` playing the role of
`NULL`.  A `uint32_t` hash is a `Nat` reduced modulo `2 ^ 32` at the point
where the caller-supplied hash function's result enters the table.

Each array slot (`UfHashmapNode` embedded in `buckets.blob`) is a root node
together with the singly linked chain hanging off its `next` pointer, so a
bucket is a root node plus a list of chained nodes.  Memory allocation
success is an explicit boolean parameter; destructor invocations are not
modelled as function calls but recorded as a list of events, including the
event of calling through a `NULL` function pointer (which the C code can do
in `uf_hashmap_put`).
-/

set_option autoImplicit false

namespace Libuf

/-- `UF_HASH_INITIAL_SIZE` (map.c line 24). -/
def UF_HASH_INITIAL_SIZE : Nat := 128

/-- `UF_KEY_SET` (map.c line 38): the mask applied to the hash on storage. -/
def UF_KEY_SET : Nat := 1

/-- One `UfHashmapNode` minus its `next` pointer: key, value and the stored
(encoded) hash.  `key = 0` / `value = 0` are the `NULL` representations. -/
structure UfHashmapNode where
  key : Nat
  value : Nat
  hash : Nat
  deriving Repr, DecidableEq

/-- A zeroed node, as produced by `calloc`. -/
def emptyNode : UfHashmapNode := ⟨0, 0, 0⟩

/-- One bucket of the table: the root node stored inline in `buckets.blob`,
plus the chain of separately allocated nodes reachable through `next`. -/
structure Bucket where
  root : UfHashmapNode
  chain : List UfHashmapNode
  deriving Repr, DecidableEq

/-- A zeroed, chainless bucket (fresh `calloc` slot). -/
def emptyBucket : Bucket := ⟨emptyNode, []⟩

/-- The nodes of a bucket in traversal order (`for (node = bucket; node;
node = node->next)`). -/
def Bucket.nodes (b : Bucket) : List UfHashmapNode := b.root :: b.chain

/-- The `UfHashmap` state.  `freeKey` / `freeValue` record whether the key /
value destructor function pointers are non-`NULL`; the destructors
themselves are observed through the event lists the operations return. -/
structure UfHashmap where
  blob : List Bucket
  max : Nat
  current : Nat
  mask : Nat
  nextResize : Nat
  hashFn : Nat → Nat
  compareFn : Nat → Nat → Bool
  freeKey : Bool
  freeValue : Bool

/-- A destructor-related observable event. -/
inductive DEvent where
  /-- `self->free.key(k)` was invoked. -/
  | dKey (k : Nat) : DEvent
  /-- `self->free.value(v)` was invoked. -/
  | dValue (v : Nat) : DEvent
  /-- a call was made through a `NULL` function pointer (undefined
  behaviour in the C source). -/
  | nullFnCall : DEvent
  deriving Repr, DecidableEq

/-- Total list indexing with a default, mirroring `self->buckets.blob[i]`. -/
def getBucket : List Bucket → Nat → Bucket
  | [], _ => emptyBucket
  | b :: _, 0 => b
  | _ :: bs, n + 1 => getBucket bs n

/-- `uf_hashmap_initial_bucket` (map.c lines 156-159): the index
`hash & self->buckets.mask`. -/
def uf_hashmap_initial_bucket (self : UfHashmap) (hash : Nat) : Nat :=
  hash &&& self.mask

/-- The walk of `uf_hashmap_put` (map.c lines 181-196): scan the nodes of the
bucket, stopping at the first node with `node->hash == 0` or with
`compare(node->key, key)`; return its position and the node itself. -/
def walkPut (cmp : Nat → Nat → Bool) (key : Nat) :
    List UfHashmapNode → Option (Nat × UfHashmapNode)
  | [] => none
  | n :: ns =>
    if n.hash = 0 then some (0, n)
    else if cmp n.key key then some (0, n)
    else
      match walkPut cmp key ns with
      | some (i, m) => some (i + 1, m)
      | none => none

/-- Replacement of the node at position `i` of a bucket's traversal order
(position 0 is the root). -/
def Bucket.setNode (b : Bucket) (i : Nat) (n : UfHashmapNode) : Bucket :=
  match i with
  | 0 => ⟨n, b.chain⟩
  | j + 1 => ⟨b.root, b.chain.set j n⟩

/-- The destructor calls of `uf_hashmap_put`'s displacement branch (map.c
lines 199-204): if `self->free.key` is set, call it on the candidate's key
and then call `self->free.value` on the candidate's value — without checking
that `self->free.value` is set. -/
def displaceEvents (fk fv : Bool) (n : UfHashmapNode) : List DEvent :=
  if fk then
    DEvent.dKey n.key :: (if fv then [DEvent.dValue n.value] else [DEvent.nullFnCall])
  else []

/-- `uf_hashmap_put` (map.c lines 161-224) on a non-`NULL` table.  `allocOk`
tells whether the `calloc` for a new chain node would succeed.  Returns the
C function's boolean result, the new table state, and the destructor events
in order. -/
def uf_hashmap_put (self : UfHashmap) (key value : Nat) (allocOk : Bool) :
    Bool × UfHashmap × List DEvent :=
  if key = 0 ∧ value = 0 then (true, self, [])
  else
    let hash := self.hashFn key % 2 ^ 32
    let idx := uf_hashmap_initial_bucket self hash
    let b := getBucket self.blob idx
    let stored : UfHashmapNode := ⟨key, value, hash ^^^ UF_KEY_SET⟩
    match walkPut self.compareFn key b.nodes with
    | some (i, n) =>
      let current' := if n.hash = 0 then self.current + 1 else self.current
      (true,
       { self with blob := self.blob.set idx (b.setNode i stored), current := current' },
       displaceEvents self.freeKey self.freeValue n)
    | none =>
      if allocOk then
        (true,
         { self with blob := self.blob.set idx ⟨b.root, stored :: b.chain⟩,
                     current := self.current + 1 },
         [])
      else (false, self, [])

/-- The walk of `uf_hashmap_get` (map.c lines 238-242): return the value of
the first node whose key compares equal, `0` (`NULL`) if none does. -/
def walkGet (cmp : Nat → Nat → Bool) (key : Nat) : List UfHashmapNode → Nat
  | [] => 0
  | n :: ns => if cmp n.key key then n.value else walkGet cmp key ns

/-- `uf_hashmap_get` (map.c lines 226-245) on a non-`NULL` table. -/
def uf_hashmap_get (self : UfHashmap) (key : Nat) : Nat :=
  let hash := self.hashFn key % 2 ^ 32
  let idx := uf_hashmap_initial_bucket self hash
  walkGet self.compareFn key (getBucket self.blob idx).nodes

/-- `uf_hashmap_simple_hash` (map.c lines 148-151): the pointer value itself,
truncated to `uint32_t`. -/
def uf_hashmap_simple_hash (v : Nat) : Nat := v % 2 ^ 32

/-- `uf_hashmap_simple_equal` (map.c lines 143-146): pointer identity. -/
def uf_hashmap_simple_equal (a b : Nat) : Bool := a == b

/-- The table produced by a fully successful `uf_hashmap_new_full`:
128 zeroed buckets, `mask = 127`,
`next_resize = (int)(128 * 0.6) = 76` (the C expression is evaluated in
IEEE double precision and truncates to 76). -/
def mkTable (hf : Nat → Nat) (cf : Nat → Nat → Bool) (fk fv : Bool) : UfHashmap :=
  { blob := List.replicate UF_HASH_INITIAL_SIZE emptyBucket
    max := UF_HASH_INITIAL_SIZE
    current := 0
    mask := UF_HASH_INITIAL_SIZE - 1
    nextResize := 76
    hashFn := hf
    compareFn := cf
    freeKey := fk
    freeValue := fv }

/-- The bucket that `put`, `get` and `remove` select for `key`:
`blob[(hash_fn(key) & mask)]`. -/
def selectedBucket (self : UfHashmap) (key : Nat) : Bucket :=
  getBucket self.blob (uf_hashmap_initial_bucket self (self.hashFn key % 2 ^ 32))

/-- `bucket_free` (map.c lines 114-127), applied to the chain list whose head
is the node passed in: recurse into `next` first, then invoke the key
destructor if configured, then the value destructor if configured.
Observable: the destructor events in invocation order. -/
def bucket_free_events (fk fv : Bool) : List UfHashmapNode → List DEvent
  | [] => []
  | n :: ns =>
    bucket_free_events fk fv ns
      ++ (if fk then [DEvent.dKey n.key] else [])
      ++ (if fv then [DEvent.dValue n.value] else [])

/-- `uf_hashmap_free` (map.c lines 129-141) on a non-`NULL` table: for every
root slot `i`, call `bucket_free(self, blob[i].next)` — only the chain behind
the root is passed in; the root's own key/value are never handed to a
destructor.  Observable: the destructor events in slot order. -/
def uf_hashmap_free_events (self : UfHashmap) : List DEvent :=
  (self.blob.map fun b => bucket_free_events self.freeKey self.freeValue b.chain).flatten

/-- Outcome of `uf_hashmap_new_full`. -/
inductive NewResult where
  /-- the constructor returned a fully initialised table -/
  | ok (t : UfHashmap) : NewResult
  /-- the constructor returned `NULL` -/
  | nullRet : NewResult
  /-- an `assert` fired and the process aborted -/
  | assertAbort : NewResult
  /-- a `NULL` pointer was dereferenced (undefined behaviour) -/
  | nullDeref : NewResult

/-- `uf_hashmap_new_full` (map.c lines 78-112).  `hashPresent` / `eqPresent`
say whether the `hash` / `compare` function pointers are non-`NULL` (the
mathematical functions themselves are `hf` / `cf`); `allocTable` /
`allocBlob` say whether the two `calloc` calls succeed.  The asserts on
lines 96-97 run before either allocation.  When the bucket-array `calloc`
fails, line 107 calls `uf_hashmap_free(ret)` with `ret->buckets.blob ==
NULL` and `ret->buckets.max == 128`, so the loop there reads
`(&blob[0])->next` through a `NULL` pointer: `nullDeref`, not a `NULL`
return. -/
def uf_hashmap_new_full (hashPresent eqPresent : Bool) (hf : Nat → Nat)
    (cf : Nat → Nat → Bool) (fk fv : Bool) (allocTable allocBlob : Bool) : NewResult :=
  if hashPresent = false ∨ eqPresent = false then NewResult.assertAbort
  else if allocTable = false then NewResult.nullRet
  else if allocBlob = false then NewResult.nullDeref
  else NewResult.ok (mkTable hf cf fk fv)

/-- `uf_hashmap_new` (map.c lines 73-76): `uf_hashmap_new_full` with both
destructors `NULL`. -/
def uf_hashmap_new (hashPresent eqPresent : Bool) (hf : Nat → Nat)
    (cf : Nat → Nat → Bool) (allocTable allocBlob : Bool) : NewResult :=
  uf_hashmap_new_full hashPresent eqPresent hf cf false false allocTable allocBlob

/-- Modelled from the spec (§4.4): the destructor calls removal makes on the
removed node — "invoke destructors on its key/value if configured", each
destructor guarded by its own presence. -/
def removeEvents (fk fv : Bool) (n : UfHashmapNode) : List DEvent :=
  (if fk then [DEvent.dKey n.key] else []) ++ (if fv then [DEvent.dValue n.value] else [])

/-- Modelled from the spec (§4.4): unlink the first chain node whose key is
`eq_fn`-equal to `key`; returns the chain without that node, and the node. -/
def removeChain (cmp : Nat → Nat → Bool) (key : Nat) :
    List UfHashmapNode → Option (List UfHashmapNode × UfHashmapNode)
  | [] => none
  | n :: ns =>
    if cmp n.key key then some (ns, n)
    else
      match removeChain cmp key ns with
      | some (ns', m) => some (n :: ns', m)
      | none => none

/-- Modelled from the spec: `uf_hashmap_remove` is declared in the public
header and exercised by `src/tests/check-map.c` (`test_map_remove`), but its
implementation is not among the reviewed sources.  Following §4.4 of the
spec: locate the bucket via `hash_fn(key) & mask`; if the occupied root
matches by equality, invoke configured destructors on it, then either reset
it to the empty representation (no chain) or splice the first chained node's
contents into the root and free that node; if a chained node matches, unlink
it, invoke configured destructors and free it; decrement `count` on any
successful removal; return whether a deletion occurred. -/
def uf_hashmap_remove (self : UfHashmap) (key : Nat) : Bool × UfHashmap × List DEvent :=
  let hash := self.hashFn key % 2 ^ 32
  let idx := uf_hashmap_initial_bucket self hash
  let b := getBucket self.blob idx
  if b.root.hash ≠ 0 ∧ self.compareFn b.root.key key = true then
    let ev := removeEvents self.freeKey self.freeValue b.root
    match b.chain with
    | [] =>
      (true, { self with blob := self.blob.set idx emptyBucket, current := self.current - 1 }, ev)
    | c :: rest =>
      (true, { self with blob := self.blob.set idx ⟨c, rest⟩, current := self.current - 1 }, ev)
  else
    match removeChain self.compareFn key b.chain with
    | some (chain', node) =>
      (true,
       { self with blob := self.blob.set idx ⟨b.root, chain'⟩, current := self.current - 1 },
       removeEvents self.freeKey self.freeValue node)
    | none => (false, self, [])

/-- Rewrite a node's stored (encoded) hash, leaving key and value alone. -/
def mapNodeHash (f : Nat → Nat) (n : UfHashmapNode) : UfHashmapNode :=
  ⟨n.key, n.value, f n.hash⟩

/-- Rewrite every stored hash of a bucket. -/
def mapBucketHash (f : Nat → Nat) (b : Bucket) : Bucket :=
  ⟨mapNodeHash f b.root, b.chain.map (mapNodeHash f)⟩

/-- Rewrite every stored hash of a table. -/
def mapStateHash (f : Nat → Nat) (self : UfHashmap) : UfHashmap :=
  { self with blob := self.blob.map (mapBucketHash f) }

/-- A fresh simple-hash/simple-equal table with no destructors. -/
def tSimple : UfHashmap :=
  mkTable uf_hashmap_simple_hash uf_hashmap_simple_equal false false

/-- A fresh simple-hash/simple-equal table with only a value destructor —
the configuration every test in `src/tests/check-map.c` that configures
destructors uses (`uf_hashmap_new_full(..., NULL, free)`). -/
def tValueFree : UfHashmap :=
  mkTable uf_hashmap_simple_hash uf_hashmap_simple_equal false true

/-- `tSimple` after storing key 2 ↦ 5: root of bucket 2 is occupied and its
chain is empty, so a chain-node allocation is needed for any further
non-matching key that hashes to bucket 2. -/
def putFailState : UfHashmap := (uf_hashmap_put tSimple 2 5 true).2.1

/-- A value-destructor table holding 2 ↦ 7 in the root of bucket 2 and
130 ↦ 8 in a chained node of the same bucket (130 & 127 = 2). -/
def rootAndChainState : UfHashmap :=
  (uf_hashmap_put (uf_hashmap_put tValueFree 2 7 true).2.1 130 8 true).2.1

/-- `tSimple` after 76 successful insertions of the distinct keys 1..76
(all with value 1): `count` reaches the growth threshold
`next_resize = 76`. -/
def putSeq76 : UfHashmap :=
  (List.range 76).foldl (fun s i => (uf_hashmap_put s (i + 1) 1 true).2.1) tSimple

/-! ## Helper lemmas -/

set_option maxRecDepth 100000

theorem getBucket_set_eq (l : List Bucket) (i : Nat) (b : Bucket) (h : i < l.length) :
    getBucket (l.set i b) i = b := by
  induction l generalizing i with
  | nil => simp at h
  | cons x xs ih =>
    cases i with
    | zero => rfl
    | succ j => exact ih j (by simp at h; omega)

theorem Bucket.nodes_setNode (b : Bucket) (i : Nat) (n : UfHashmapNode) :
    (b.setNode i n).nodes = b.nodes.set i n := by
  cases i <;> rfl

/-- If the put-walk claims the node at position `i`, then after storing
`⟨key, v, h⟩` there, the get-walk over the updated nodes returns `v`:
every node before position `i` fails both of the walk's tests, in
particular the key comparison. -/
theorem walkPut_some_walkGet (cmp : Nat → Nat → Bool) (key v h : Nat)
    (ns : List UfHashmapNode) (i : Nat) (n : UfHashmapNode)
    (hrefl : cmp key key = true)
    (hw : walkPut cmp key ns = some (i, n)) :
    walkGet cmp key (ns.set i ⟨key, v, h⟩) = v := by
  induction ns generalizing i n with
  | nil => simp [walkPut] at hw
  | cons x xs ih =>
    simp only [walkPut] at hw
    split at hw
    · cases hw
      simp [walkGet, hrefl]
    · split at hw
      · cases hw
        simp [walkGet, hrefl]
      · rename_i hx hc
        have hc' : cmp x.key key = false := by
          cases hcv : cmp x.key key
          · rfl
          · exact absurd hcv hc
        cases hrec : walkPut cmp key xs with
        | some p =>
          obtain ⟨j, m⟩ := p
          simp only [hrec] at hw
          cases hw
          simp only [List.set_cons_succ, walkGet, hc', if_false]
          exact ih _ _ hrec
        | none => simp [hrec] at hw

/-- If the put-walk claims no node, every node of the bucket is occupied
(`hash ≠ 0`) and fails the key comparison. -/
theorem walkPut_none (cmp : Nat → Nat → Bool) (key : Nat)
    (ns : List UfHashmapNode) (hw : walkPut cmp key ns = none) :
    ∀ n ∈ ns, n.hash ≠ 0 ∧ cmp n.key key = false := by
  induction ns with
  | nil => simp
  | cons x xs ih =>
    simp only [walkPut] at hw
    split at hw
    · exact absurd hw (by simp)
    · split at hw
      · exact absurd hw (by simp)
      · rename_i hx hc
        cases hrec : walkPut cmp key xs with
        | some p => simp [hrec] at hw
        | none =>
          intro n hn
          rcases List.mem_cons.mp hn with rfl | hmem
          · refine ⟨hx, ?_⟩
            cases hcv : cmp n.key key
            · rfl
            · exact absurd hcv hc
          · exact ih hrec n hmem

theorem Bucket.nodes_def (b : Bucket) : b.nodes = b.root :: b.chain := rfl

/-- The get-walk over nodes none of which matches the key returns `NULL`. -/
theorem walkGet_no_match (cmp : Nat → Nat → Bool) (key : Nat)
    (ns : List UfHashmapNode) (h : ∀ n ∈ ns, cmp n.key key = false) :
    walkGet cmp key ns = 0 := by
  induction ns with
  | nil => rfl
  | cons n ns ih =>
    have hn := h n (List.mem_cons_self n ns)
    simp only [walkGet, hn, Bool.false_eq_true, if_false]
    exact ih fun m hm => h m (List.mem_cons_of_mem n hm)

/-- The get-walk over a single zeroed root returns `NULL` whether or not the
equality function matches the `NULL` key, because the stored value is
itself `NULL`. -/
theorem walkGet_emptyNode (cmp : Nat → Nat → Bool) (k : Nat) :
    walkGet cmp k [emptyNode] = 0 := by
  simp only [walkGet, emptyNode]
  split <;> rfl

/-- What a successful `removeChain` yields: the removed node matches the
key, it was in the chain, and the new chain holds exactly one fewer
matching node. -/
theorem removeChain_some (cmp : Nat → Nat → Bool) (key : Nat)
    (ns ns' : List UfHashmapNode) (m : UfHashmapNode)
    (h : removeChain cmp key ns = some (ns', m)) :
    cmp m.key key = true ∧ m ∈ ns ∧
      (ns'.filter fun n => cmp n.key key).length + 1
        = (ns.filter fun n => cmp n.key key).length := by
  induction ns generalizing ns' m with
  | nil => simp [removeChain] at h
  | cons n ns ih =>
    simp only [removeChain] at h
    split at h
    · rename_i hcv
      cases h
      refine ⟨hcv, List.mem_cons_self _ _, ?_⟩
      rw [List.filter_cons, if_pos hcv]
      rfl
    · rename_i hcv
      have hcv' : cmp n.key key = false := by
        cases hx : cmp n.key key
        · rfl
        · exact absurd hx hcv
      cases hrec : removeChain cmp key ns with
      | some q =>
        obtain ⟨ns2, m2⟩ := q
        simp only [hrec] at h
        cases h
        obtain ⟨h1, h2, h3⟩ := ih _ _ hrec
        refine ⟨h1, List.mem_cons_of_mem n h2, ?_⟩
        rw [List.filter_cons, if_neg (by simp [hcv']), List.filter_cons,
          if_neg (by simp [hcv'])]
        exact h3
      | none => simp [hrec] at h

/-- `removeChain` fails exactly when no chain node matches the key. -/
theorem removeChain_eq_none_iff (cmp : Nat → Nat → Bool) (key : Nat)
    (ns : List UfHashmapNode) :
    removeChain cmp key ns = none ↔ ∀ n ∈ ns, cmp n.key key = false := by
  induction ns with
  | nil => simp [removeChain]
  | cons n ns ih =>
    simp only [removeChain]
    split
    · rename_i hcv
      constructor
      · intro h; cases h
      · intro hall
        exact absurd (hall n (List.mem_cons_self n ns)) (by simp [hcv])
    · rename_i hcv
      have hcv' : cmp n.key key = false := by
        cases hx : cmp n.key key
        · rfl
        · exact absurd hx hcv
      cases hrec : removeChain cmp key ns with
      | some q =>
        constructor
        · intro h; cases h
        · intro hall
          have hnone : removeChain cmp key ns = none :=
            ih.mpr fun m hm => hall m (List.mem_cons_of_mem n hm)
          rw [hrec] at hnone
          cases hnone
      | none =>
        constructor
        · intro _ m hm
          rcases List.mem_cons.mp hm with rfl | hmem
          · exact hcv'
          · exact ih.mp hrec m hmem
        · intro _; rfl

/-- Rewriting stored hashes leaves the get-walk unchanged: the walk looks
only at keys and values. -/
theorem walkGet_map_hash (cmp : Nat → Nat → Bool) (key : Nat) (f : Nat → Nat)
    (ns : List UfHashmapNode) :
    walkGet cmp key (ns.map (mapNodeHash f)) = walkGet cmp key ns := by
  induction ns with
  | nil => rfl
  | cons n ns ih => simp [walkGet, mapNodeHash, ih]

theorem getBucket_map_hash_nodes (cmp : Nat → Nat → Bool) (key : Nat) (f : Nat → Nat)
    (l : List Bucket) (i : Nat) :
    walkGet cmp key (getBucket (l.map (mapBucketHash f)) i).nodes
      = walkGet cmp key (getBucket l i).nodes := by
  induction l generalizing i with
  | nil => rfl
  | cons b bs ih =>
    cases i with
    | zero =>
      show walkGet cmp key (mapBucketHash f b).nodes = _
      have hn : (mapBucketHash f b).nodes = b.nodes.map (mapNodeHash f) := rfl
      rw [hn, walkGet_map_hash]
      rfl
    | succ j => exact ih j

theorem getBucket_replicate (n i : Nat) :
    getBucket (List.replicate n emptyBucket) i = emptyBucket := by
  induction n generalizing i with
  | zero => cases i <;> rfl
  | succ m ih =>
    cases i with
    | zero => rfl
    | succ j => exact ih j

/-! ## Claim theorems -/

/-- C1: Round-trip — on any table whose bucket array matches its mask
(`length = mask + 1`, as every constructed table satisfies) and whose
equality function is reflexive at `k`, `put(k, v)` with `k`,`v` not both
null, followed by `get(k)`, returns `v`. -/
theorem put_get_round_trip (s : UfHashmap) (k v : Nat)
    (hlen : s.blob.length = s.mask + 1)
    (hrefl : s.compareFn k k = true)
    (hnn : ¬(k = 0 ∧ v = 0)) :
    uf_hashmap_get (uf_hashmap_put s k v true).2.1 k = v := by
  unfold uf_hashmap_put uf_hashmap_initial_bucket
  rw [if_neg hnn]
  dsimp only
  have hidx : s.hashFn k % 2 ^ 32 &&& s.mask < s.blob.length := by
    have := Nat.and_le_right (n := s.hashFn k % 2 ^ 32) (m := s.mask)
    omega
  split
  · rename_i i n hw
    unfold uf_hashmap_get uf_hashmap_initial_bucket
    dsimp only
    rw [getBucket_set_eq _ _ _ hidx, Bucket.nodes_setNode]
    exact walkPut_some_walkGet _ _ _ _ _ _ _ hrefl hw
  · rename_i hw
    rw [if_pos rfl]
    unfold uf_hashmap_get uf_hashmap_initial_bucket
    dsimp only
    rw [getBucket_set_eq _ _ _ hidx]
    have hroot := walkPut_none _ _ _ hw
      (getBucket s.blob (s.hashFn k % 2 ^ 32 &&& s.mask)).root (by simp [Bucket.nodes])
    simp only [Bucket.nodes, walkGet]
    rw [hroot.2]
    simp [walkGet, hrefl]

/-- Witness for C1: a fresh simple-hash table, `put(5, 7)` then `get(5)`. -/
theorem put_get_round_trip_witness :
    tSimple.blob.length = tSimple.mask + 1 ∧ tSimple.compareFn 5 5 = true ∧
      uf_hashmap_get (uf_hashmap_put tSimple 5 7 true).2.1 5 = 7 :=
  ⟨rfl, rfl, put_get_round_trip tSimple 5 7 rfl rfl (by decide)⟩

/-- C9: Degenerate put — `put(NULL, NULL)` reports success, changes no table
state and invokes no destructor, on every table. -/
theorem put_null_pair_noop (s : UfHashmap) (allocOk : Bool) :
    uf_hashmap_put s 0 0 allocOk = (true, s, []) := by
  simp [uf_hashmap_put]

/-- C2: evaluation at the failing input.  `uf_hashmap_put` stores
`hash ^ UF_KEY_SET` (XOR, map.c line 219), not `hash | UF_KEY_SET`: with
`hash_fn(k) = 1` the occupied slot stores encoded hash `0` (claimed to mark
"never occupied"), and with `hash_fn(k) = 3` it stores `2`, whose low bit is
`0` — the bit is not forced to 1.  Consequence shown in the last two
conjuncts: after `put(5, 9)` under `hash_fn ≡ 1`, a `put(6, 4)` into the
same bucket treats the occupied slot as empty, bumps `count` to 2 and
erases key 5's entry (`get(5) = NULL`). -/
theorem put_stores_xor_not_or :
    (getBucket (uf_hashmap_put (mkTable (fun _ => 1) uf_hashmap_simple_equal false false)
        5 9 true).2.1.blob 1).root.hash = 0 ∧
    (getBucket (uf_hashmap_put (mkTable (fun _ => 3) uf_hashmap_simple_equal false false)
        5 9 true).2.1.blob 3).root.hash = 2 ∧
    (uf_hashmap_put (uf_hashmap_put (mkTable (fun _ => 1) uf_hashmap_simple_equal false false)
        5 9 true).2.1 6 4 true).2.1.current = 2 ∧
    uf_hashmap_get (uf_hashmap_put (uf_hashmap_put
        (mkTable (fun _ => 1) uf_hashmap_simple_equal false false)
        5 9 true).2.1 6 4 true).2.1 5 = 0 :=
  ⟨rfl, rfl, rfl, rfl⟩

/-- C3: evaluation at the failing inputs.  The displacement branch of
`uf_hashmap_put` (map.c lines 199-204) runs destructors only when
`self->free.key` is set, then calls `self->free.value` without checking it:
(1) with only a value destructor (the tests' configuration), overwriting
`5 ↦ 7` by `5 ↦ 8` fires no destructor at all even though `get(5) = 8`
confirms the displacement; (2) with only a key destructor, the overwrite
calls through the `NULL` value-destructor pointer; (3) with both
configured, the very first `put` into a never-occupied slot already fires
both destructors, on the slot's null key/value pair. -/
theorem put_overwrite_destructors_diverge :
    (uf_hashmap_put (uf_hashmap_put tValueFree 5 7 true).2.1 5 8 true).2.2 = [] ∧
    uf_hashmap_get (uf_hashmap_put (uf_hashmap_put tValueFree 5 7 true).2.1 5 8 true).2.1 5
      = 8 ∧
    (uf_hashmap_put (uf_hashmap_put
        (mkTable uf_hashmap_simple_hash uf_hashmap_simple_equal true false) 5 7 true).2.1
        5 8 true).2.2 = [DEvent.dKey 5, DEvent.nullFnCall] ∧
    (uf_hashmap_put (mkTable uf_hashmap_simple_hash uf_hashmap_simple_equal true true)
        5 7 true).2.2 = [DEvent.dKey 0, DEvent.dValue 0] :=
  ⟨rfl, rfl, rfl, rfl⟩

/-- C4: evaluation at the failing input.  After 76 count-increasing
insertions the count has reached the growth threshold (`next_resize = 76`),
yet the capacity is still 128 buckets (mask 127): `uf_hashmap_put` contains
no resize logic, so the doubling to 256 the claim describes never
happens. -/
theorem put_never_resizes :
    putSeq76.current = 76 ∧ putSeq76.nextResize = 76 ∧ putSeq76.max = 128 ∧
      putSeq76.mask = 127 ∧ putSeq76.blob.length = 128 :=
  ⟨rfl, rfl, rfl, rfl, rfl⟩

/-- C6: evaluation at the failing input.  `uf_hashmap_free` (map.c line 136)
hands only `node->next` to `bucket_free`, so destructors run for chained
nodes only: freeing a value-destructor table holding `5 ↦ 7` in a root slot
fires nothing, and freeing one holding `2 ↦ 7` (root) and `130 ↦ 8`
(chained, same bucket) fires only on the chained value 8 — the root's
value 7 is leaked. -/
theorem free_skips_root_destructors :
    uf_hashmap_free_events (uf_hashmap_put tValueFree 5 7 true).2.1 = [] ∧
      uf_hashmap_free_events rootAndChainState = [DEvent.dValue 8] :=
  ⟨rfl, rfl⟩

/-- C7: Put failure atomicity — whenever `uf_hashmap_put` on a (non-`NULL`)
table reports failure, the chain-node allocation had failed, and the table
is returned unmodified with no destructor invoked. -/
theorem put_failure_atomic (s : UfHashmap) (k v : Nat) (allocOk : Bool)
    (hfail : (uf_hashmap_put s k v allocOk).1 = false) :
    allocOk = false ∧ (uf_hashmap_put s k v allocOk).2.1 = s ∧
      (uf_hashmap_put s k v allocOk).2.2 = [] := by
  unfold uf_hashmap_put at hfail ⊢
  by_cases hnn : k = 0 ∧ v = 0
  · rw [if_pos hnn] at hfail
    simp at hfail
  · rw [if_neg hnn] at hfail ⊢
    dsimp only at hfail ⊢
    cases hw : walkPut s.compareFn k
        (getBucket s.blob (uf_hashmap_initial_bucket s (s.hashFn k % 2 ^ 32))).nodes with
    | some p =>
      obtain ⟨i, n⟩ := p
      simp only [hw] at hfail
      simp at hfail
    | none =>
      simp only [hw] at hfail ⊢
      cases allocOk with
      | true => simp at hfail
      | false => exact ⟨rfl, rfl, rfl⟩

/-- Witness for C7: key 130 collides with the occupied root of bucket 2
(key 2) and its chain is empty, so a node allocation is needed; with the
allocation failing, `put` fails and leaves the table untouched. -/
theorem put_failure_atomic_witness :
    (uf_hashmap_put putFailState 130 7 false).1 = false ∧
      (uf_hashmap_put putFailState 130 7 false).2.1 = putFailState :=
  ⟨rfl, (put_failure_atomic putFailState 130 7 false rfl).2.1⟩

/-- C8 counterexample: with the hash function absent, the constructor does
not fail by returning an error/null value — the `assert` on map.c line 96
aborts the process instead. -/
theorem new_full_missing_hash_aborts :
    uf_hashmap_new_full false true (fun v => v) (fun a b => a == b) false false true true
      = NewResult.assertAbort ∧ NewResult.assertAbort ≠ NewResult.nullRet :=
  ⟨rfl, fun h => NewResult.noConfusion h⟩

/-- C8 (amended): `uf_hashmap_new_full` aborts via `assert` when `hash_fn`
or `eq_fn` is absent; returns `NULL` when the table-struct allocation
fails; dereferences the `NULL` bucket array inside its cleanup path (rather
than returning `NULL`) when the bucket-array allocation fails; and on full
success returns a table of capacity 128 with mask 127, growth threshold
`next_resize = 76`, count 0, and every root slot zero-initialized
(`encoded_hash = 0`). -/
theorem new_full_behaviour (hf : Nat → Nat) (cf : Nat → Nat → Bool) (fk fv ab : Bool) :
    (uf_hashmap_new_full false true hf cf fk fv true ab = NewResult.assertAbort) ∧
    (uf_hashmap_new_full true false hf cf fk fv true ab = NewResult.assertAbort) ∧
    (uf_hashmap_new_full true true hf cf fk fv false ab = NewResult.nullRet) ∧
    (uf_hashmap_new_full true true hf cf fk fv true false = NewResult.nullDeref) ∧
    (uf_hashmap_new_full true true hf cf fk fv true true
      = NewResult.ok (mkTable hf cf fk fv)) ∧
    (mkTable hf cf fk fv).max = 128 ∧ (mkTable hf cf fk fv).mask = 127 ∧
    (mkTable hf cf fk fv).nextResize = 76 ∧ (mkTable hf cf fk fv).current = 0 ∧
    (mkTable hf cf fk fv).blob = List.replicate 128 emptyBucket :=
  ⟨rfl, rfl, rfl, rfl, rfl, rfl, rfl, rfl, rfl, rfl⟩

/-- C10: `uf_hashmap_get` walks every node of the selected bucket —
root included — testing only `eq_fn` (first conjunct, the definitional
shape of the walk); its result is invariant under arbitrary rewriting of
every stored encoded hash, so occupancy state is never consulted (second
conjunct); and on a fresh table, for any key the equality function matches
against the null root key, it returns the empty root's null value (third
conjunct). -/
theorem get_matches_by_equality_only :
    (∀ (s : UfHashmap) (k : Nat),
        uf_hashmap_get s k = walkGet s.compareFn k (selectedBucket s k).nodes) ∧
    (∀ (s : UfHashmap) (f : Nat → Nat) (k : Nat),
        uf_hashmap_get (mapStateHash f s) k = uf_hashmap_get s k) ∧
    (∀ (hf : Nat → Nat) (cf : Nat → Nat → Bool) (fk fv : Bool) (k : Nat),
        cf 0 k = true → uf_hashmap_get (mkTable hf cf fk fv) k = 0) := by
  refine ⟨fun s k => rfl, fun s f k => ?_, fun hf cf fk fv k h => ?_⟩
  · unfold uf_hashmap_get mapStateHash uf_hashmap_initial_bucket
    dsimp only
    exact getBucket_map_hash_nodes _ _ _ _ _
  · unfold uf_hashmap_get uf_hashmap_initial_bucket mkTable
    dsimp only
    rw [getBucket_replicate]
    simp [Bucket.nodes, emptyBucket, emptyNode, walkGet, h]

/-- Witness for C10's hypothesis-bearing conjunct: simple (pointer)
equality matches the null key 0 against itself, and `get(0)` on a fresh
table returns `NULL`. -/
theorem get_matches_by_equality_only_witness :
    uf_hashmap_get (mkTable uf_hashmap_simple_hash uf_hashmap_simple_equal false false) 0
      = 0 :=
  get_matches_by_equality_only.2.2 uf_hashmap_simple_hash uf_hashmap_simple_equal
    false false 0 rfl

/-- C5: against the spec-modelled `uf_hashmap_remove` — on a table whose
bucket array matches its mask and whose selected bucket holds at most one
node matching `k` (the spec's no-duplicates invariant), `remove(k)`
succeeds exactly when an occupied slot matching `k` exists (root or
chained); on success `get(k)` afterwards returns `NotFound` (`NULL`) and
the count drops by one; on failure the table is unchanged. -/
theorem remove_deletes_match (s : UfHashmap) (k : Nat)
    (hlen : s.blob.length = s.mask + 1)
    (huniq : ((selectedBucket s k).nodes.filter fun n => s.compareFn n.key k).length ≤ 1) :
    ((uf_hashmap_remove s k).1 = true ↔
      ((selectedBucket s k).root.hash ≠ 0 ∧ s.compareFn (selectedBucket s k).root.key k = true)
        ∨ ∃ n ∈ (selectedBucket s k).chain, s.compareFn n.key k = true) ∧
    ((uf_hashmap_remove s k).1 = true →
      uf_hashmap_get (uf_hashmap_remove s k).2.1 k = 0 ∧
        (uf_hashmap_remove s k).2.1.current = s.current - 1) ∧
    ((uf_hashmap_remove s k).1 = false → (uf_hashmap_remove s k).2.1 = s) := by
  have hidx : s.hashFn k % 2 ^ 32 &&& s.mask < s.blob.length := by
    have := Nat.and_le_right (n := s.hashFn k % 2 ^ 32) (m := s.mask)
    omega
  unfold uf_hashmap_remove
  unfold selectedBucket at huniq ⊢
  unfold uf_hashmap_initial_bucket at huniq ⊢
  dsimp only at huniq ⊢
  generalize hG : getBucket s.blob (s.hashFn k % 2 ^ 32 &&& s.mask) = B at huniq ⊢
  by_cases hroot : B.root.hash ≠ 0 ∧ s.compareFn B.root.key k = true
  · rw [if_pos hroot]
    have hsplit : (B.nodes.filter fun n => s.compareFn n.key k)
        = B.root :: (B.chain.filter fun n => s.compareFn n.key k) := by
      rw [Bucket.nodes_def, List.filter_cons, if_pos hroot.2]
    rw [hsplit] at huniq
    have hfc0 : ((B.chain.filter fun n => s.compareFn n.key k)).length = 0 := by
      rw [List.length_cons] at huniq
      omega
    have hchainno : ∀ n ∈ B.chain, s.compareFn n.key k = false := by
      intro n hn
      have := List.filter_eq_nil_iff.mp (List.length_eq_zero.mp hfc0) n hn
      cases hx : s.compareFn n.key k
      · rfl
      · exact absurd hx this
    cases hchain : B.chain with
    | nil =>
      dsimp only
      refine ⟨by simp [hroot.1, hroot.2], fun _ => ⟨?_, rfl⟩, by simp⟩
      unfold uf_hashmap_get uf_hashmap_initial_bucket
      dsimp only
      rw [getBucket_set_eq _ _ _ hidx]
      exact walkGet_emptyNode _ _
    | cons c rest =>
      dsimp only
      refine ⟨by simp [hroot.1, hroot.2], fun _ => ⟨?_, rfl⟩, by simp⟩
      unfold uf_hashmap_get uf_hashmap_initial_bucket
      dsimp only
      rw [getBucket_set_eq _ _ _ hidx]
      refine walkGet_no_match _ _ _ ?_
      intro n hn
      exact hchainno n (by rw [hchain]; exact hn)
  · rw [if_neg hroot]
    cases hrc : removeChain s.compareFn k B.chain with
    | some q =>
      obtain ⟨chain', m⟩ := q
      dsimp only
      obtain ⟨hm1, hm2, hm3⟩ := removeChain_some _ _ _ _ _ hrc
      have hrootfalse : s.compareFn B.root.key k = false := by
        cases hx : s.compareFn B.root.key k
        · rfl
        · exfalso
          have hsplit : (B.nodes.filter fun n => s.compareFn n.key k)
              = B.root :: (B.chain.filter fun n => s.compareFn n.key k) := by
            rw [Bucket.nodes_def, List.filter_cons, if_pos hx]
          rw [hsplit, List.length_cons] at huniq
          omega
      have hsplit : (B.nodes.filter fun n => s.compareFn n.key k)
          = B.chain.filter fun n => s.compareFn n.key k := by
        rw [Bucket.nodes_def, List.filter_cons, if_neg (by simp [hrootfalse])]
      rw [hsplit] at huniq
      have hchain'no : ∀ n ∈ chain', s.compareFn n.key k = false := by
        intro n hn
        have hlen0 : (chain'.filter fun n => s.compareFn n.key k).length = 0 := by omega
        have := List.filter_eq_nil_iff.mp (List.length_eq_zero.mp hlen0) n hn
        cases hx : s.compareFn n.key k
        · rfl
        · exact absurd hx this
      refine ⟨by simp only [true_iff]; exact Or.inr ⟨m, hm2, hm1⟩, fun _ => ⟨?_, rfl⟩, by simp⟩
      unfold uf_hashmap_get uf_hashmap_initial_bucket
      dsimp only
      rw [getBucket_set_eq _ _ _ hidx]
      refine walkGet_no_match _ _ _ ?_
      intro n hn
      rcases List.mem_cons.mp hn with rfl | hmem
      · exact hrootfalse
      · exact hchain'no n hmem
    | none =>
      dsimp only
      have hnomatch := (removeChain_eq_none_iff _ _ _).mp hrc
      refine ⟨?_, by simp, fun _ => rfl⟩
      simp only [Bool.false_eq_true, false_iff]
      rintro (hr | ⟨n, hn, hcv⟩)
      · exact hroot hr
      · rw [hnomatch n hn] at hcv
        cases hcv

/-- Witness for C5: removing key 2 from the table holding only 2 ↦ 5
succeeds, after which `get(2)` returns `NULL` and the count is back to
zero. -/
theorem remove_deletes_match_witness :
    (uf_hashmap_remove putFailState 2).1 = true ∧
      uf_hashmap_get (uf_hashmap_remove putFailState 2).2.1 2 = 0 ∧
      (uf_hashmap_remove putFailState 2).2.1.current = putFailState.current - 1 := by
  have h := remove_deletes_match putFailState 2 rfl (by decide)
  have ht : (uf_hashmap_remove putFailState 2).1 = true := by decide
  exact ⟨ht, (h.2.1 ht).1, (h.2.1 ht).2⟩

end Libuf
